import Mathlib

set_option maxHeartbeats 1000000

namespace DocToSpeech

/-!
Verification of the doc-2-speech client core against its specification.

Part 1 models the progress-stream consumer `consumeSSE` from
`src/app/src/utils.ts`.  Transport text is modelled as `List Char` (the
decoded character stream; `TextDecoder` with streaming makes byte-level
chunk boundaries transparent at the character level), a transport fragment
is one `List Char`, and the external `JSON.parse` is an abstract parameter
`parse : List Char → Except ε α` where `Except.error` models a thrown
exception.
-/

/-- Model of the JavaScript sequence `buffer.split("\x5cn")` followed by
`lines.pop()`: returns the complete (newline-terminated) lines, without
their terminating newline, together with the remaining text after the last
newline. -/
def splitNl : List Char → List (List Char) × List Char
  | [] => ([], [])
  | c :: rest =>
    let p := splitNl rest
    if c = '\n' then ([] :: p.1, p.2)
    else
      match p.1 with
      | [] => ([], c :: p.2)
      | l :: ls => ((c :: l) :: ls, p.2)

/-- The characters of the frame marker `"data: "` checked by
`line.startsWith("data: ")` in `consumeSSE`. -/
def dataMarker : List Char := "data: ".toList

/-- Whether a complete line is an event frame, i.e. starts with `"data: "`. -/
def isDataLine (l : List Char) : Bool := dataMarker.isPrefixOf l

/-- State of one run of `consumeSSE`: the accumulation `buffer`, the
arguments of the `onEvent` callback invocations so far (in order), the
`lastData` variable, and the pending thrown exception if `JSON.parse`
threw (`none` while no exception is in flight). -/
structure SSEState (ε α : Type) where
  buffer : List Char
  events : List α
  lastData : Option α
  error : Option ε
deriving DecidableEq

/-- The initial state of `consumeSSE`: empty buffer, no events, `lastData = null`. -/
def initState (ε α : Type) : SSEState ε α := ⟨[], [], none, none⟩

/-- The body of the `for (const line of lines)` loop of `consumeSSE`:
a line starting with `"data: "` has its payload `line.slice(6)` parsed;
on success `onEvent` fires and `lastData` is updated, a parse failure is
a thrown exception, which exits the loop at once.  Other lines are
silently skipped. -/
def processLines (parse : List Char → Except ε α) :
    SSEState ε α → List (List Char) → SSEState ε α
  | st, [] => st
  | st, line :: rest =>
    if isDataLine line then
      match parse (line.drop 6) with
      | .ok d => processLines parse { st with events := st.events ++ [d], lastData := some d } rest
      | .error e => { st with error := some e }
    else processLines parse st rest

/-- One iteration of the `while (true)` read loop of `consumeSSE` on a
received transport fragment: append the fragment to the buffer, split at
newlines, keep the unterminated remainder as the new buffer, and run the
line loop on the complete lines.  Once an exception is in flight the
function has already returned, so further fragments leave the state
unchanged. -/
def consumeStep (parse : List Char → Except ε α) (st : SSEState ε α)
    (chunk : List Char) : SSEState ε α :=
  if st.error.isSome then st
  else
    let p := splitNl (st.buffer ++ chunk)
    processLines parse { st with buffer := p.2 } p.1

/-- The whole run of `consumeSSE` over a list of transport fragments.
The JavaScript return value is `lastData` of the final state when
`error = none`; an `error = some e` final state models the function
rejecting with the exception `e`. -/
def consumeSSE (parse : List Char → Except ε α) (chunks : List (List Char)) :
    SSEState ε α :=
  chunks.foldl (consumeStep parse) (initState ε α)

/-- The concatenation of all transport fragments: the full character stream. -/
def joinChunks (cs : List (List Char)) : List Char := cs.foldr (· ++ ·) []

/-- The complete newline-terminated frames of a stream. -/
def frames (s : List Char) : List (List Char) := (splitNl s).1

/-- The complete frames of a stream that carry the `"data: "` marker. -/
def dataFrames (s : List Char) : List (List Char) := (frames s).filter isDataLine

/-- The payloads (text after `"data: "`) of the data frames of a stream. -/
def payloadsOf (lines : List (List Char)) : List (List Char) :=
  (lines.filter isDataLine).map (fun l => l.drop 6)

/-- A total payload parser lifted into the fallible interface: models
`JSON.parse` on a stream whose payloads are all valid. -/
def okParse (f : List Char → α) : List Char → Except Unit α := fun s => .ok (f s)

/-- The value of a variable that is overwritten by each element of a list
in order (`lastData` semantics). -/
def lastOf (o : Option α) (E : List α) : Option α := E.foldl (fun _ d => some d) o

/-- Processing a list of payloads with a fallible parser: the events
produced before the first failure, and the first failure if any. -/
def runLines (parse : List Char → Except ε α) : List (List Char) → List α × Option ε
  | [] => ([], none)
  | p :: ps =>
    match parse p with
    | .ok d => ((runLines parse ps).1.cons d, (runLines parse ps).2)
    | .error e => ([], some e)

/-- The first parse failure along a list of payloads, if any. -/
def firstErr (parse : List Char → Except ε α) : List (List Char) → Option ε
  | [] => none
  | p :: ps =>
    match parse p with
    | .ok _ => firstErr parse ps
    | .error e => some e

/-- A parser that rejects every payload, to exercise the abort path. -/
def rejectAll : List Char → Except Unit Unit := fun _ => .error ()

/-! ### Lemmas about `splitNl` -/

theorem splitNl_append (a b : List Char) :
    splitNl (a ++ b) =
      ((splitNl a).1 ++ (splitNl ((splitNl a).2 ++ b)).1,
        (splitNl ((splitNl a).2 ++ b)).2) := by
  induction a with
  | nil => simp [splitNl]
  | cons c a' ih =>
    by_cases hc : c = '\n'
    · subst hc
      simp [splitNl, ih]
    · rcases h : (splitNl a').1 with _ | ⟨l, ls⟩
      · rcases h2 : (splitNl ((splitNl a').2 ++ b)).1 with _ | ⟨l2, ls2⟩ <;>
          simp [splitNl, hc, ih, h, h2]
      · simp [splitNl, hc, ih, h]

theorem splitNl_of_no_newline {s : List Char} (h : '\n' ∉ s) :
    splitNl s = ([], s) := by
  induction s with
  | nil => simp [splitNl]
  | cons c rest ih =>
    have hc : c ≠ '\n' := fun hc => h (hc ▸ List.mem_cons_self c rest)
    have hr : '\n' ∉ rest := fun hr => h (List.mem_cons_of_mem c hr)
    simp [splitNl, if_neg hc, ih hr]

theorem newline_not_mem_splitNl_snd (s : List Char) : '\n' ∉ (splitNl s).2 := by
  induction s with
  | nil => simp [splitNl]
  | cons c rest ih =>
    by_cases hc : c = '\n'
    · simpa [splitNl, hc] using ih
    · rcases h : (splitNl rest).1 with _ | ⟨l, ls⟩
      · simp only [splitNl, if_neg hc, h]
        intro hmem
        rcases List.mem_cons.mp hmem with h1 | h1
        · exact hc h1.symm
        · exact ih h1
      · simpa [splitNl, if_neg hc, h] using ih

/-- Gluing the complete frames back with their newlines, followed by the
remainder, reconstructs the stream: the frames are exactly the
newline-terminated pieces and the remainder is the text after the last
newline. -/
theorem splitNl_reconstruct (s : List Char) :
    (splitNl s).1.foldr (fun l acc => l ++ '\n' :: acc) (splitNl s).2 = s := by
  induction s with
  | nil => simp [splitNl]
  | cons c rest ih =>
    by_cases hc : c = '\n'
    · subst hc
      simpa [splitNl] using ih
    · rcases h : (splitNl rest).1 with _ | ⟨l, ls⟩
      · rw [h] at ih
        simp only [List.foldr_nil] at ih
        simp [splitNl, hc, h, ih]
      · rw [h] at ih
        simp only [List.foldr_cons] at ih
        simp [splitNl, hc, h, ih]

/-! ### Lemmas about `runLines`, `lastOf`, `payloadsOf` -/

theorem lastOf_append (o : Option α) (E1 E2 : List α) :
    lastOf o (E1 ++ E2) = lastOf (lastOf o E1) E2 := by
  simp [lastOf, List.foldl_append]

theorem lastOf_cons (o : Option α) (d : α) (E : List α) :
    lastOf o (d :: E) = lastOf (some d) E := rfl

theorem lastOf_none_eq_getLast? (E : List α) : lastOf none E = E.getLast? := by
  suffices h : ∀ (o : Option α), lastOf o E = match E.getLast? with
      | some d => some d
      | none => o by
    have := h none
    cases hE : E.getLast? <;> simp [hE] at this ⊢ <;> exact this
  induction E with
  | nil => intro o; simp [lastOf]
  | cons d E ih =>
    intro o
    rw [lastOf_cons, ih (some d)]
    cases hE : E.getLast? with
    | some d2 =>
      have : (d :: E).getLast? = some d2 := by
        cases E with
        | nil => simp at hE
        | cons x xs => rw [List.getLast?_cons_cons, hE]
      simp [this]
    | none =>
      have hE2 : E = [] := by
        cases E with
        | nil => rfl
        | cons x xs => simp [List.getLast?_eq_getLast] at hE
      subst hE2
      simp

theorem runLines_append (parse : List Char → Except ε α) (ps qs : List (List Char)) :
    runLines parse (ps ++ qs) =
      match (runLines parse ps).2 with
      | some e => ((runLines parse ps).1, some e)
      | none => ((runLines parse ps).1 ++ (runLines parse qs).1, (runLines parse qs).2) := by
  induction ps with
  | nil => simp [runLines]
  | cons p ps ih =>
    cases hp : parse p with
    | ok d =>
      cases h2 : (runLines parse ps).2 <;>
        simp [runLines, hp, ih, h2]
    | error e => simp [runLines, hp]

theorem runLines_okParse (f : List Char → α) (ps : List (List Char)) :
    runLines (okParse f) ps = (ps.map f, none) := by
  induction ps with
  | nil => simp [runLines]
  | cons p ps ih => simp [runLines, okParse, ih]

theorem payloadsOf_append (a b : List (List Char)) :
    payloadsOf (a ++ b) = payloadsOf a ++ payloadsOf b := by
  simp [payloadsOf]

theorem firstErr_eq_runLines_snd (parse : List Char → Except ε α)
    (ps : List (List Char)) : firstErr parse ps = (runLines parse ps).2 := by
  induction ps with
  | nil => simp [firstErr, runLines]
  | cons p ps ih =>
    cases hp : parse p <;> simp [firstErr, runLines, hp, ih]

/-! ### Characterization of one parse pass -/

theorem processLines_eq (parse : List Char → Except ε α) (st : SSEState ε α)
    (lines : List (List Char)) (h : st.error = none) :
    processLines parse st lines =
      { buffer := st.buffer,
        events := st.events ++ (runLines parse (payloadsOf lines)).1,
        lastData := lastOf st.lastData (runLines parse (payloadsOf lines)).1,
        error := (runLines parse (payloadsOf lines)).2 } := by
  induction lines generalizing st with
  | nil =>
    simp [processLines, payloadsOf, runLines, lastOf, ← h]
  | cons line rest ih =>
    by_cases hd : isDataLine line
    · cases hp : parse (line.drop 6) with
      | ok d =>
        have := ih { st with events := st.events ++ [d], lastData := some d } h
        simp only [processLines, hd, if_pos rfl, hp, this]
        simp [payloadsOf, hd, runLines, hp, lastOf_cons]
      | error e =>
        simp only [processLines, hd, if_pos rfl, hp]
        simp [payloadsOf, hd, runLines, hp, ← h, lastOf]
    · simp only [processLines, hd]
      rw [ih st h]
      simp [payloadsOf, hd]

theorem consumeStep_eq (parse : List Char → Except ε α) (st : SSEState ε α)
    (chunk : List Char) (h : st.error = none) :
    consumeStep parse st chunk =
      { buffer := (splitNl (st.buffer ++ chunk)).2,
        events := st.events ++
          (runLines parse (payloadsOf (splitNl (st.buffer ++ chunk)).1)).1,
        lastData := lastOf st.lastData
          (runLines parse (payloadsOf (splitNl (st.buffer ++ chunk)).1)).1,
        error := (runLines parse (payloadsOf (splitNl (st.buffer ++ chunk)).1)).2 } := by
  obtain ⟨b, ev, ld, err⟩ := st
  simp only at h
  subst h
  simp only [consumeStep, Option.isSome_none, Bool.false_eq_true, if_false]
  exact processLines_eq parse ⟨(splitNl (b ++ chunk)).2, ev, ld, none⟩ _ rfl

/-! ### Invariance under re-fragmentation: reduction to a one-shot pass -/

/-- Two consumer states agree on everything the caller can observe: the
events delivered, the `lastData` return value, the pending exception, and
(while no exception is in flight) the accumulation buffer. -/
def SSEquiv (st1 st2 : SSEState ε α) : Prop :=
  st1.events = st2.events ∧ st1.lastData = st2.lastData ∧ st1.error = st2.error ∧
    (st1.error = none → st1.buffer = st2.buffer)

theorem SSEquiv.refl (st : SSEState ε α) : SSEquiv st st :=
  ⟨rfl, rfl, rfl, fun _ => rfl⟩

theorem SSEquiv.symm {st1 st2 : SSEState ε α} (h : SSEquiv st1 st2) : SSEquiv st2 st1 :=
  ⟨h.1.symm, h.2.1.symm, h.2.2.1.symm,
    fun h2 => (h.2.2.2 (h.2.2.1.trans h2)).symm⟩

theorem SSEquiv.trans {st1 st2 st3 : SSEState ε α} (h : SSEquiv st1 st2)
    (h' : SSEquiv st2 st3) : SSEquiv st1 st3 :=
  ⟨h.1.trans h'.1, h.2.1.trans h'.2.1, h.2.2.1.trans h'.2.2.1,
    fun h2 => (h.2.2.2 h2).trans (h'.2.2.2 (h.2.2.1.symm.trans h2))⟩

theorem consumeStep_of_some {parse : List Char → Except ε α} {st : SSEState ε α}
    {e : ε} (h : st.error = some e) (c : List Char) :
    consumeStep parse st c = st := by
  simp [consumeStep, h]

theorem SSEquiv.step (parse : List Char → Except ε α) {st1 st2 : SSEState ε α}
    (h : SSEquiv st1 st2) (c : List Char) :
    SSEquiv (consumeStep parse st1 c) (consumeStep parse st2 c) := by
  obtain ⟨he, hl, herr, hb⟩ := h
  cases h1 : st1.error with
  | some e =>
    have h2 : st2.error = some e := herr ▸ h1
    rw [consumeStep_of_some h1, consumeStep_of_some h2]
    exact ⟨he, hl, herr, hb⟩
  | none =>
    have h2 : st2.error = none := herr ▸ h1
    rw [consumeStep_eq parse st1 c h1, consumeStep_eq parse st2 c h2,
      hb h1, he, hl]
    exact SSEquiv.refl _

theorem SSEquiv.foldl (parse : List Char → Except ε α) {st1 st2 : SSEState ε α}
    (h : SSEquiv st1 st2) (cs : List (List Char)) :
    SSEquiv (cs.foldl (consumeStep parse) st1) (cs.foldl (consumeStep parse) st2) := by
  induction cs generalizing st1 st2 with
  | nil => exact h
  | cons c cs ih => exact ih (h.step parse c)

/-- Merging two adjacent transport fragments does not change anything the
caller can observe. -/
theorem consumeStep_merge (parse : List Char → Except ε α) (st : SSEState ε α)
    (a b : List Char) :
    SSEquiv (consumeStep parse st (a ++ b))
      (consumeStep parse (consumeStep parse st a) b) := by
  cases h : st.error with
  | some e =>
    rw [consumeStep_of_some h, consumeStep_of_some h, consumeStep_of_some h]
    exact SSEquiv.refl st
  | none =>
    have hsplit : splitNl (st.buffer ++ (a ++ b)) =
        ((splitNl (st.buffer ++ a)).1 ++
            (splitNl ((splitNl (st.buffer ++ a)).2 ++ b)).1,
          (splitNl ((splitNl (st.buffer ++ a)).2 ++ b)).2) := by
      rw [← List.append_assoc]
      exact splitNl_append (st.buffer ++ a) b
    have hA := consumeStep_eq parse st a h
    have hAB := consumeStep_eq parse st (a ++ b) h
    simp only [hsplit, payloadsOf_append, runLines_append] at hAB
    cases herr : (runLines parse (payloadsOf (splitNl (st.buffer ++ a)).1)).2 with
    | some e =>
      simp only [herr] at hA hAB
      rw [hAB, hA, consumeStep_of_some rfl]
      exact ⟨rfl, rfl, rfl, fun hc => by simp at hc⟩
    | none =>
      simp only [herr] at hA hAB
      rw [hAB, hA, consumeStep_eq parse _ b rfl]
      simp only [List.append_assoc, lastOf_append]
      exact SSEquiv.refl _

/-- Every run of the consumer is observably equal to the run that receives
the whole stream as one fragment. -/
theorem consume_foldl_oneShot (parse : List Char → Except ε α) (cs : List (List Char)) :
    ∀ st : SSEState ε α, '\n' ∉ st.buffer →
      SSEquiv (cs.foldl (consumeStep parse) st) (consumeStep parse st (joinChunks cs)) := by
  induction cs with
  | nil =>
    intro st hb
    simp only [List.foldl_nil, joinChunks, List.foldr_nil]
    cases h : st.error with
    | some e =>
      rw [consumeStep_of_some h]
      exact SSEquiv.refl st
    | none =>
      rw [consumeStep_eq parse st [] h]
      rw [List.append_nil, splitNl_of_no_newline hb]
      simp only [payloadsOf, List.filter_nil, List.map_nil, runLines, lastOf,
        List.foldl_nil, List.append_nil]
      exact ⟨rfl, rfl, h, fun _ => rfl⟩
  | cons c cs ih =>
    intro st hb
    have hb' : '\n' ∉ (consumeStep parse st c).buffer := by
      cases h : st.error with
      | some e =>
        rw [consumeStep_of_some h]
        exact hb
      | none =>
        rw [consumeStep_eq parse st c h]
        exact newline_not_mem_splitNl_snd _
    have h1 := ih (consumeStep parse st c) hb'
    have h2 := consumeStep_merge parse st c (joinChunks cs)
    simp only [List.foldl_cons]
    have hj : joinChunks (c :: cs) = c ++ joinChunks cs := rfl
    rw [hj]
    exact h1.trans h2.symm

/-- Full characterization of a consumer run in terms of the joined stream. -/
theorem consumeSSE_char (parse : List Char → Except ε α) (cs : List (List Char)) :
    SSEquiv (consumeSSE parse cs)
      ⟨(splitNl (joinChunks cs)).2,
        (runLines parse (payloadsOf (frames (joinChunks cs)))).1,
        lastOf none (runLines parse (payloadsOf (frames (joinChunks cs)))).1,
        (runLines parse (payloadsOf (frames (joinChunks cs)))).2⟩ := by
  have h := consume_foldl_oneShot parse cs (initState ε α) (by simp [initState])
  have h2 := consumeStep_eq parse (initState ε α) (joinChunks cs) rfl
  rw [h2] at h
  simpa [consumeSSE, initState, frames] using h

theorem consumeSSE_events_eq (parse : List Char → Except ε α) (cs : List (List Char)) :
    (consumeSSE parse cs).events =
      (runLines parse (payloadsOf (frames (joinChunks cs)))).1 :=
  (consumeSSE_char parse cs).1

theorem consumeSSE_lastData_eq (parse : List Char → Except ε α) (cs : List (List Char)) :
    (consumeSSE parse cs).lastData =
      lastOf none (runLines parse (payloadsOf (frames (joinChunks cs)))).1 :=
  (consumeSSE_char parse cs).2.1

theorem consumeSSE_error_eq (parse : List Char → Except ε α) (cs : List (List Char)) :
    (consumeSSE parse cs).error =
      (runLines parse (payloadsOf (frames (joinChunks cs)))).2 :=
  (consumeSSE_char parse cs).2.2.1

theorem payloadsOf_frames (s : List Char) :
    payloadsOf (frames s) = (dataFrames s).map (fun l => l.drop 6) := rfl

/-- Gluing a list of frames back together with a newline after each. -/
def joinNl (L : List (List Char)) : List Char :=
  L.foldr (fun l acc => l ++ '\n' :: acc) []

theorem joinNl_base (L : List (List Char)) (z : List Char) :
    L.foldr (fun l acc => l ++ '\n' :: acc) z = joinNl L ++ z := by
  induction L with
  | nil => simp [joinNl]
  | cons l ls ih => simp [joinNl, ih]

theorem joinNl_getLast? (L : List (List Char)) (h : L ≠ []) :
    (joinNl L).getLast? = some '\n' := by
  induction L with
  | nil => exact absurd rfl h
  | cons l ls ih =>
    have hl : joinNl (l :: ls) = l ++ '\n' :: joinNl ls := rfl
    rw [hl, List.getLast?_append_cons]
    cases ls with
    | nil => rfl
    | cons l2 ls' =>
      have hne : joinNl (l2 :: ls') ≠ [] := by
        have : joinNl (l2 :: ls') = l2 ++ '\n' :: joinNl ls' := rfl
        simp [this]
      have : ('\n' :: joinNl (l2 :: ls')) = ['\n'] ++ joinNl (l2 :: ls') := rfl
      rw [this, List.getLast?_append_of_ne_nil _ hne]
      exact ih (by simp)

/-- Claim C1: for every sequence of transport fragments, after each parse
pass the accumulation buffer of `consumeSSE` equals exactly the unconsumed
remainder of the stream received so far: the text after the last newline.
Quantifying over the fragment list covers the state after every parse
pass of every run, for arbitrarily many and arbitrarily split fragments. -/
theorem consumeSSE_buffer_is_remainder (f : List Char → α) (cs : List (List Char)) :
    (consumeSSE (okParse f) cs).buffer = (splitNl (joinChunks cs)).2 ∧
    '\n' ∉ (consumeSSE (okParse f) cs).buffer ∧
    ∃ consumed, joinChunks cs = consumed ++ (consumeSSE (okParse f) cs).buffer ∧
      (consumed = [] ∨ consumed.getLast? = some '\n') := by
  have hchar := consumeSSE_char (okParse f) cs
  have herr : (consumeSSE (okParse f) cs).error = none := by
    rw [consumeSSE_error_eq, runLines_okParse]
  have hbuf : (consumeSSE (okParse f) cs).buffer = (splitNl (joinChunks cs)).2 :=
    hchar.2.2.2 herr
  refine ⟨hbuf, ?_, ?_⟩
  · rw [hbuf]
    exact newline_not_mem_splitNl_snd _
  · refine ⟨joinNl (splitNl (joinChunks cs)).1, ?_, ?_⟩
    · rw [hbuf]
      conv_lhs => rw [← splitNl_reconstruct (joinChunks cs)]
      rw [joinNl_base]
    · cases h : (splitNl (joinChunks cs)).1 with
      | nil => exact Or.inl rfl
      | cons l ls =>
        exact Or.inr (h ▸ joinNl_getLast? (l :: ls) (by simp))

/-- Claim C2: the consumer invokes its event callback exactly once per
complete newline-terminated frame whose line begins with `"data: "`, in
stream order, and never for a frame whose terminating newline has not yet
arrived (the unterminated remainder contributes no event).  `f` stands
for `JSON.parse` on a stream of valid payloads. -/
theorem consumeSSE_events_are_dataFrames (f : List Char → α) (cs : List (List Char)) :
    (consumeSSE (okParse f) cs).events =
      (dataFrames (joinChunks cs)).map (fun l => f (l.drop 6)) := by
  rw [consumeSSE_events_eq, runLines_okParse, payloadsOf_frames, List.map_map]
  rfl

/-- Claim C3: the observable outcome of `consumeSSE` — the sequence of
event-callback invocations, the returned `lastData`, and the thrown
exception if any — is invariant under re-fragmentation of the transport
stream. -/
theorem consumeSSE_refragmentation_invariant (parse : List Char → Except ε α)
    (cs1 cs2 : List (List Char)) (h : joinChunks cs1 = joinChunks cs2) :
    (consumeSSE parse cs1).events = (consumeSSE parse cs2).events ∧
    (consumeSSE parse cs1).lastData = (consumeSSE parse cs2).lastData ∧
    (consumeSSE parse cs1).error = (consumeSSE parse cs2).error := by
  have h1 := consumeSSE_char parse cs1
  have h2 := consumeSSE_char parse cs2
  rw [h] at h1
  have h3 := h1.trans h2.symm
  exact ⟨h3.1, h3.2.1, h3.2.2.1⟩

/-- Closed witness for claim C3: the same stream delivered as one fragment
or split in the middle of the `"data: "` marker produces the same events. -/
theorem consumeSSE_refragmentation_invariant_witness :
    joinChunks [("data: ab\n").toList] = joinChunks [("da").toList, ("ta: ab\n").toList] ∧
    (consumeSSE (fun s => Except.ok (s : List Char) : List Char → Except Unit (List Char))
        [("data: ab\n").toList]).events =
      (consumeSSE (fun s => Except.ok (s : List Char) : List Char → Except Unit (List Char))
        [("da").toList, ("ta: ab\n").toList]).events :=
  ⟨by decide,
    (consumeSSE_refragmentation_invariant
      (fun s => Except.ok (s : List Char) : List Char → Except Unit (List Char))
      [("data: ab\n").toList] [("da").toList, ("ta: ab\n").toList] (by decide)).1⟩

/-- Claim C9: `consumeSSE` returns `null` exactly when the stream holds no
complete `"data: "` frame, and otherwise returns the parsed payload of the
last such frame, which is also the argument of the final event-callback
invocation. -/
theorem consumeSSE_returns_last_data (f : List Char → α) (cs : List (List Char)) :
    (consumeSSE (okParse f) cs).lastData =
      ((dataFrames (joinChunks cs)).map (fun l => f (l.drop 6))).getLast? ∧
    (consumeSSE (okParse f) cs).lastData =
      (consumeSSE (okParse f) cs).events.getLast? := by
  have he := consumeSSE_events_are_dataFrames f cs
  have hl : (consumeSSE (okParse f) cs).lastData =
      (consumeSSE (okParse f) cs).events.getLast? := by
    rw [consumeSSE_lastData_eq, consumeSSE_events_eq, lastOf_none_eq_getLast?]
  exact ⟨by rw [hl, he], hl⟩

/-- Claim C10: `consumeSSE` leaves `JSON.parse` unguarded: its thrown
exception is exactly the first parse failure among the payloads of the
complete `"data: "` frames, so a complete data frame with an invalid
payload aborts the consumer, while complete lines without the marker are
skipped and can never do so — concretely, an always-failing parser aborts
on `"data: x\n"` but not on `"hello\nworld\n"`. -/
theorem consumeSSE_unguarded_parse :
    (∀ (ε α : Type) (parse : List Char → Except ε α) (cs : List (List Char)),
        (consumeSSE parse cs).error =
          firstErr parse ((dataFrames (joinChunks cs)).map (fun l => l.drop 6))) ∧
    (consumeSSE rejectAll [("data: x\n").toList]).error = some () ∧
    (consumeSSE rejectAll [("hello\nworld\n").toList]).error = none := by
  refine ⟨?_, by decide, by decide⟩
  intro ε α parse cs
  rw [consumeSSE_error_eq, firstErr_eq_runLines_snd, payloadsOf_frames]

/-!
 ### Part 2: the conversion driver (src/app/src/RunningPage.vue, `run`)

`run` is a straight-line async function; each `await` point is modelled by
an oracle (`RunEnv`) saying how the external fetch/stream behaved there:
the fetch rejected with `AbortError`, the response was not ok, or a stream
of already-parsed events was delivered (possibly cut short by an abort).
A thrown JavaScript exception is `JsError`: `abort` for `AbortError`,
`err m` for any other error (including the `TypeError` raised by reading
`job_id` off a `null` last event).
-/

inductive StageStatus where
  | idle
  | loading
  | done
  | error
deriving DecidableEq

/-- What `stage.detail` shows.  The JavaScript renders a percentage string
with float arithmetic (`Math.round((completed / total) * 100) + "%"`);
the model keeps the two integers, which determines that string. -/
inductive Detail where
  | empty
  | msg (s : String)
  | pct (completed total : Nat)
deriving DecidableEq

structure Stage where
  status : StageStatus
  detail : Detail
deriving DecidableEq

structure Stages3 where
  s0 : Stage
  s1 : Stage
  s2 : Stage
deriving DecidableEq

/-- One parsed progress event, with the dynamic fields `run` reads;
a missing field is `none`. -/
structure Event where
  message : Option String
  job_id : Option String
  total : Option Nat
  completed : Option Nat
  status : Option String
  output_file : Option String
deriving DecidableEq

/-- A thrown JavaScript exception: `AbortError` or anything else. -/
inductive JsError where
  | abort
  | err (message : String)
deriving DecidableEq

/-- How one `fetch` + stream exchange went, as seen by `run`. -/
inductive FetchOutcome where
  | abortedAtFetch
  | badStatus (statusText : String)
  | stream (events : List Event) (abortedMid : Bool)
deriving DecidableEq

structure RunEnv where
  extract : FetchOutcome
  refine : FetchOutcome
  tts : FetchOutcome
deriving DecidableEq

/-- The component state touched by `run`.  `hasAbortController` models
`abortController.value !== null`. -/
structure RunState where
  stages : Stages3
  jobId : Option String
  isConverting : Bool
  cancelled : Bool
  hasAbortController : Bool
  outputPath : Option String
  errorMsg : Option String
deriving DecidableEq

/-- The outward actions of `run`, in order: HTTP requests issued (with the
job identifier interpolated into the URL) and event-callback invocations
(`evt i e` is the `onEvent` of stage `i` receiving `e`). -/
inductive Action where
  | reqExtract
  | evt (stage : Nat) (e : Event)
  | reqRefine (jobId : Option String)
  | reqTts (jobId : Option String)
deriving DecidableEq

/-- `stages[1]`/`stages[2]` detail update:
`if (event.total && event.completed != null) pct else message ?? ""`.
JavaScript truthiness makes `total = 0` fall to the message branch. -/
def progressDetail (e : Event) : Detail :=
  match e.total, e.completed with
  | some t, some c => if t = 0 then .msg (e.message.getD "") else .pct c t
  | _, _ => .msg (e.message.getD "")

/-- The extract stage's `onEvent`: `stages[0].detail = event.message ?? ""`. -/
def extractConsume (st : RunState) : List Event → RunState
  | [] => st
  | e :: rest =>
    extractConsume
      { st with stages := { st.stages with
          s0 := { st.stages.s0 with detail := .msg (e.message.getD "") } } } rest

/-- The refine stage's `onEvent`: percent or message detail on `stages[1]`. -/
def refineConsume (st : RunState) : List Event → RunState
  | [] => st
  | e :: rest =>
    refineConsume
      { st with stages := { st.stages with
          s1 := { st.stages.s1 with detail := progressDetail e } } } rest

/-- The tts stage's `onEvent`: an event with `status === "error"` throws
from inside the callback (stopping the stream), otherwise the detail of
`stages[2]` is updated.  Returns the state, the callback trace, and the
exception if one was thrown. -/
def ttsConsume (st : RunState) : List Event → RunState × List Action × Option JsError
  | [] => (st, [], none)
  | e :: rest =>
    if e.status = some "error" then
      (st, [.evt 2 e], some (.err (e.message.getD "TTS error")))
    else
      let r := ttsConsume
        { st with stages := { st.stages with
            s2 := { st.stages.s2 with detail := progressDetail e } } } rest
      (r.1, .evt 2 e :: r.2.1, r.2.2)

/-- Stage 3 of the `try` block: mark `stages[2]` loading, request
`/jobs/{jobId}/tts`, consume the stream, re-check the last event's status,
then mark done and record `outputPath = data3?.output_file`. -/
def doTts (o : FetchOutcome) (st : RunState) : List Action × RunState × Option JsError :=
  let st := { st with stages := { st.stages with
      s2 := { st.stages.s2 with status := .loading } } }
  match o with
  | .abortedAtFetch => ([.reqTts st.jobId], st, some .abort)
  | .badStatus s => ([.reqTts st.jobId], st, some (.err ("TTS failed: " ++ s)))
  | .stream evs aborted =>
    let r := ttsConsume st evs
    match r.2.2, aborted with
    | some e, _ => (.reqTts st.jobId :: r.2.1, r.1, some e)
    | none, true => (.reqTts st.jobId :: r.2.1, r.1, some .abort)
    | none, false =>
      match evs.getLast? with
      | some d3 =>
        if d3.status = some "error" then
          (.reqTts st.jobId :: r.2.1, r.1, some (.err (d3.message.getD "TTS error")))
        else
          (.reqTts st.jobId :: r.2.1,
            { r.1 with
              stages := { r.1.stages with s2 := { status := .done, detail := .empty } },
              outputPath := d3.output_file }, none)
      | none =>
        (.reqTts st.jobId :: r.2.1,
          { r.1 with
            stages := { r.1.stages with s2 := { status := .done, detail := .empty } },
            outputPath := none }, none)

/-- Stage 2 of the `try` block: mark `stages[1]` loading, request
`/jobs/{jobId}/refine`, consume the stream (result unused), mark done,
then run stage 3. -/
def doRefine (oR oT : FetchOutcome) (st : RunState) :
    List Action × RunState × Option JsError :=
  let st := { st with stages := { st.stages with
      s1 := { st.stages.s1 with status := .loading } } }
  match oR with
  | .abortedAtFetch => ([.reqRefine st.jobId], st, some .abort)
  | .badStatus s => ([.reqRefine st.jobId], st, some (.err ("Refine failed: " ++ s)))
  | .stream evs true =>
    (.reqRefine st.jobId :: evs.map (Action.evt 1), refineConsume st evs, some .abort)
  | .stream evs false =>
    let st2 := refineConsume st evs
    let st3 := { st2 with stages := { st2.stages with
        s1 := { status := .done, detail := .empty } } }
    let r := doTts oT st3
    (.reqRefine st.jobId :: evs.map (Action.evt 1) ++ r.1, r.2.1, r.2.2)

/-- The component state right after `run` enters its `try` block:
fresh stages, a live abort controller, `isConverting = true`. -/
def startState : RunState :=
  { stages := ⟨⟨.idle, .empty⟩, ⟨.idle, .empty⟩, ⟨.idle, .empty⟩⟩,
    jobId := none, isConverting := true, cancelled := false,
    hasAbortController := true, outputPath := none, errorMsg := none }

/-- The whole `try` block of `run`: extract (which reads
`data1.job_id` — a `TypeError` if the stream held no event), then refine,
then tts.  Returns the action trace, the state at exit, and the exception
that escaped the block, if any. -/
def tryRun (env : RunEnv) : List Action × RunState × Option JsError :=
  let st := { startState with stages := { startState.stages with
      s0 := { startState.stages.s0 with status := .loading } } }
  match env.extract with
  | .abortedAtFetch => ([.reqExtract], st, some .abort)
  | .badStatus s => ([.reqExtract], st, some (.err ("Extract failed: " ++ s)))
  | .stream evs true =>
    (.reqExtract :: evs.map (Action.evt 0), extractConsume st evs, some .abort)
  | .stream evs false =>
    let st2 := extractConsume st evs
    match evs.getLast? with
    | none =>
      (.reqExtract :: evs.map (Action.evt 0), st2,
        some (.err "Cannot read properties of null (reading 'job_id')"))
    | some d1 =>
      let st3 := { st2 with
        jobId := d1.job_id,
        stages := { st2.stages with s0 := { status := .done, detail := .empty } } }
      let r := doRefine env.refine env.tts st3
      (.reqExtract :: evs.map (Action.evt 0) ++ r.1, r.2.1, r.2.2)

/-- `stages.forEach((s) => { if (s.status === "loading") s.status = "idle" })`. -/
def clearStage (s : Stage) : Stage :=
  if s.status = .loading then { s with status := .idle } else s

def clearLoading (sg : Stages3) : Stages3 :=
  ⟨clearStage sg.s0, clearStage sg.s1, clearStage sg.s2⟩

/-- `stages.findIndex((s) => s.status === "loading")` then mark it error. -/
def markFirstLoadingError (sg : Stages3) : Stages3 :=
  if sg.s0.status = .loading then { sg with s0 := { sg.s0 with status := .error } }
  else if sg.s1.status = .loading then { sg with s1 := { sg.s1 with status := .error } }
  else if sg.s2.status = .loading then { sg with s2 := { sg.s2 with status := .error } }
  else sg

/-- The whole of `run`: the `try` block, the `catch` (AbortError records a
cancellation and returns loading stages to idle; any other error marks the
first loading stage and sets the message), and the `finally` (release
`isConverting` and the abort controller). -/
def run (env : RunEnv) : List Action × RunState :=
  let r := tryRun env
  let st := r.2.1
  let st1 :=
    match r.2.2 with
    | none => st
    | some .abort => { st with cancelled := true, stages := clearLoading st.stages }
    | some (.err m) =>
      { st with stages := markFirstLoadingError st.stages, errorMsg := some m }
  (r.1, { st1 with isConverting := false, hasAbortController := false })

/-! ### Lemmas about the stream-consumption helpers of `run` -/

theorem extractConsume_char (evs : List Event) : ∀ st : RunState,
    ∃ d, extractConsume st evs =
      { st with stages := { st.stages with
          s0 := { st.stages.s0 with detail := d } } } := by
  induction evs with
  | nil => intro st; exact ⟨st.stages.s0.detail, rfl⟩
  | cons e rest ih =>
    intro st
    obtain ⟨d, hd⟩ := ih { st with stages := { st.stages with
        s0 := { st.stages.s0 with detail := .msg (e.message.getD "") } } }
    exact ⟨d, hd⟩

theorem refineConsume_char (evs : List Event) : ∀ st : RunState,
    ∃ d, refineConsume st evs =
      { st with stages := { st.stages with
          s1 := { st.stages.s1 with detail := d } } } := by
  induction evs with
  | nil => intro st; exact ⟨st.stages.s1.detail, rfl⟩
  | cons e rest ih =>
    intro st
    obtain ⟨d, hd⟩ := ih { st with stages := { st.stages with
        s1 := { st.stages.s1 with detail := progressDetail e } } }
    exact ⟨d, hd⟩

theorem ttsConsume_char (evs : List Event) : ∀ st : RunState,
    ∃ d, (ttsConsume st evs).1 =
      { st with stages := { st.stages with
          s2 := { st.stages.s2 with detail := d } } } := by
  induction evs with
  | nil => intro st; exact ⟨st.stages.s2.detail, rfl⟩
  | cons e rest ih =>
    intro st
    by_cases h : e.status = some "error"
    · exact ⟨st.stages.s2.detail, by simp [ttsConsume, h]⟩
    · obtain ⟨d, hd⟩ := ih { st with stages := { st.stages with
          s2 := { st.stages.s2 with detail := progressDetail e } } }
      exact ⟨d, by simp [ttsConsume, h]; exact hd⟩

theorem ttsConsume_trace_evt (evs : List Event) : ∀ (st : RunState),
    ∀ a ∈ (ttsConsume st evs).2.1, ∃ e, a = Action.evt 2 e := by
  induction evs with
  | nil => intro st a ha; simp [ttsConsume] at ha
  | cons e rest ih =>
    intro st a ha
    by_cases h : e.status = some "error"
    · simp [ttsConsume, h] at ha
      exact ⟨e, ha⟩
    · simp only [ttsConsume, if_neg h, List.mem_cons] at ha
      rcases ha with ha | ha
      · exact ⟨e, ha⟩
      · exact ih _ a ha

/-! ### Lemmas about `doTts`, `doRefine`, `tryRun` -/

theorem doTts_trace_head (o : FetchOutcome) (st : RunState) :
    ∃ tail, (doTts o st).1 = Action.reqTts st.jobId :: tail ∧
      ∀ a ∈ tail, ∃ e, a = Action.evt 2 e := by
  cases o with
  | abortedAtFetch => exact ⟨[], rfl, by simp⟩
  | badStatus s => exact ⟨[], rfl, by simp⟩
  | stream evs ab =>
    refine ⟨(ttsConsume { st with stages := { st.stages with
        s2 := { st.stages.s2 with status := .loading } } } evs).2.1, ?_, ?_⟩
    · simp only [doTts]
      split
      · rfl
      · rfl
      · split
        · split
          · rfl
          · rfl
        · rfl
    · exact fun a ha => ttsConsume_trace_evt evs _ a ha

theorem extractConsume_fields (evs : List Event) (st : RunState) :
    (extractConsume st evs).stages.s0.status = st.stages.s0.status ∧
    (extractConsume st evs).stages.s1 = st.stages.s1 ∧
    (extractConsume st evs).stages.s2 = st.stages.s2 ∧
    (extractConsume st evs).jobId = st.jobId ∧
    (extractConsume st evs).outputPath = st.outputPath ∧
    (extractConsume st evs).errorMsg = st.errorMsg ∧
    (extractConsume st evs).cancelled = st.cancelled ∧
    (extractConsume st evs).isConverting = st.isConverting ∧
    (extractConsume st evs).hasAbortController = st.hasAbortController := by
  obtain ⟨d, hd⟩ := extractConsume_char evs st
  rw [hd]
  exact ⟨rfl, rfl, rfl, rfl, rfl, rfl, rfl, rfl, rfl⟩

theorem refineConsume_fields (evs : List Event) (st : RunState) :
    (refineConsume st evs).stages.s0 = st.stages.s0 ∧
    (refineConsume st evs).stages.s1.status = st.stages.s1.status ∧
    (refineConsume st evs).stages.s2 = st.stages.s2 ∧
    (refineConsume st evs).jobId = st.jobId ∧
    (refineConsume st evs).outputPath = st.outputPath ∧
    (refineConsume st evs).errorMsg = st.errorMsg ∧
    (refineConsume st evs).cancelled = st.cancelled ∧
    (refineConsume st evs).isConverting = st.isConverting ∧
    (refineConsume st evs).hasAbortController = st.hasAbortController := by
  obtain ⟨d, hd⟩ := refineConsume_char evs st
  rw [hd]
  exact ⟨rfl, rfl, rfl, rfl, rfl, rfl, rfl, rfl, rfl⟩

theorem ttsConsume_fields (evs : List Event) (st : RunState) :
    (ttsConsume st evs).1.stages.s0 = st.stages.s0 ∧
    (ttsConsume st evs).1.stages.s1 = st.stages.s1 ∧
    (ttsConsume st evs).1.stages.s2.status = st.stages.s2.status ∧
    (ttsConsume st evs).1.jobId = st.jobId ∧
    (ttsConsume st evs).1.outputPath = st.outputPath ∧
    (ttsConsume st evs).1.errorMsg = st.errorMsg ∧
    (ttsConsume st evs).1.cancelled = st.cancelled ∧
    (ttsConsume st evs).1.isConverting = st.isConverting ∧
    (ttsConsume st evs).1.hasAbortController = st.hasAbortController := by
  obtain ⟨d, hd⟩ := ttsConsume_char evs st
  rw [hd]
  exact ⟨rfl, rfl, rfl, rfl, rfl, rfl, rfl, rfl, rfl⟩

theorem doTts_state (o : FetchOutcome) (st : RunState) :
    (doTts o st).2.1.stages.s0 = st.stages.s0 ∧
    (doTts o st).2.1.stages.s1 = st.stages.s1 ∧
    ((doTts o st).2.1.stages.s2.status = StageStatus.loading ∨
      (doTts o st).2.1.stages.s2.status = StageStatus.done) ∧
    (doTts o st).2.1.jobId = st.jobId ∧
    (doTts o st).2.1.errorMsg = st.errorMsg ∧
    (doTts o st).2.1.cancelled = st.cancelled ∧
    (doTts o st).2.1.isConverting = st.isConverting ∧
    (doTts o st).2.1.hasAbortController = st.hasAbortController := by
  cases o with
  | abortedAtFetch => exact ⟨rfl, rfl, Or.inl rfl, rfl, rfl, rfl, rfl, rfl⟩
  | badStatus s => exact ⟨rfl, rfl, Or.inl rfl, rfl, rfl, rfl, rfl, rfl⟩
  | stream evs ab =>
    obtain ⟨d, hd⟩ := ttsConsume_char evs { st with stages := { st.stages with
        s2 := { st.stages.s2 with status := .loading } } }
    simp only [doTts]
    split
    · simp [hd]
    · simp [hd]
    · split
      · split
        · simp [hd]
        · simp [hd]
      · simp [hd]

theorem doTts_outputPath (o : FetchOutcome) (st : RunState) (h : st.outputPath = none)
    (p : String) (hp : (doTts o st).2.1.outputPath = some p) :
    ∃ evs3 d3, o = FetchOutcome.stream evs3 false ∧ evs3.getLast? = some d3 ∧
      d3.output_file = some p := by
  cases o with
  | abortedAtFetch => simp [doTts, h] at hp
  | badStatus s => simp [doTts, h] at hp
  | stream evs ab =>
    obtain ⟨d, hd⟩ := ttsConsume_char evs { st with stages := { st.stages with
        s2 := { st.stages.s2 with status := .loading } } }
    rcases h22 : (ttsConsume { st with stages := { st.stages with
        s2 := { st.stages.s2 with status := .loading } } } evs).2.2 with _ | e
    · cases ab
      · rcases hL : evs.getLast? with _ | d3
        · simp only [doTts, h22, hL] at hp
          simp at hp
        · by_cases hs : d3.status = some "error"
          · simp only [doTts, h22, hL, if_pos hs] at hp
            rw [hd] at hp
            simp [h] at hp
          · simp only [doTts, h22, hL, if_neg hs] at hp
            exact ⟨evs, d3, rfl, hL, by simpa using hp⟩
      · simp only [doTts, h22] at hp
        rw [hd] at hp
        simp [h] at hp
    · simp only [doTts, h22] at hp
      rw [hd] at hp
      simp [h] at hp

theorem doRefine_trace_head (oR oT : FetchOutcome) (st : RunState) :
    ∃ tail, (doRefine oR oT st).1 = Action.reqRefine st.jobId :: tail := by
  cases oR with
  | abortedAtFetch => exact ⟨[], rfl⟩
  | badStatus s => exact ⟨[], rfl⟩
  | stream evs ab =>
    cases ab
    · exact ⟨_, rfl⟩
    · exact ⟨_, rfl⟩

theorem doRefine_trace_mem (oR oT : FetchOutcome) (st : RunState) :
    ∀ a ∈ (doRefine oR oT st).1,
      a = Action.reqRefine st.jobId ∨ (∃ e, a = Action.evt 1 e) ∨
        a = Action.reqTts st.jobId ∨ ∃ e, a = Action.evt 2 e := by
  cases oR with
  | abortedAtFetch =>
    intro a ha
    simp only [doRefine, List.mem_singleton] at ha
    exact Or.inl ha
  | badStatus s =>
    intro a ha
    simp only [doRefine, List.mem_singleton] at ha
    exact Or.inl ha
  | stream evs ab =>
    intro a ha
    cases ab
    · simp only [doRefine, List.mem_cons, List.mem_append] at ha
      rcases ha with (h1 | h1) | h1
      · exact Or.inl h1
      · obtain ⟨e, _, he⟩ := List.mem_map.mp h1
        exact Or.inr (Or.inl ⟨e, he.symm⟩)
      · obtain ⟨t2, ht2, hall⟩ := doTts_trace_head oT
          { refineConsume { st with stages := { st.stages with
              s1 := { st.stages.s1 with status := .loading } } } evs with
            stages := { (refineConsume { st with stages := { st.stages with
              s1 := { st.stages.s1 with status := .loading } } } evs).stages with
              s1 := { status := .done, detail := .empty } } }
        rw [ht2] at h1
        rcases List.mem_cons.mp h1 with h3 | h3
        · have hjob := (refineConsume_fields evs { st with stages := { st.stages with
              s1 := { st.stages.s1 with status := .loading } } }).2.2.2.1
          exact Or.inr (Or.inr (Or.inl (h3.trans (congrArg Action.reqTts hjob))))
        · exact Or.inr (Or.inr (Or.inr (hall a h3)))
    · simp only [doRefine, List.mem_cons] at ha
      rcases ha with h1 | h1
      · exact Or.inl h1
      · obtain ⟨e, _, he⟩ := List.mem_map.mp h1
        exact Or.inr (Or.inl ⟨e, he.symm⟩)

theorem doRefine_state (oR oT : FetchOutcome) (st : RunState) :
    (doRefine oR oT st).2.1.stages.s0 = st.stages.s0 ∧
    ((doRefine oR oT st).2.1.stages.s1.status = StageStatus.loading ∨
      (doRefine oR oT st).2.1.stages.s1.status = StageStatus.done) ∧
    ((doRefine oR oT st).2.1.stages.s2.status = st.stages.s2.status ∨
      (doRefine oR oT st).2.1.stages.s2.status = StageStatus.loading ∨
      (doRefine oR oT st).2.1.stages.s2.status = StageStatus.done) ∧
    (doRefine oR oT st).2.1.jobId = st.jobId ∧
    (doRefine oR oT st).2.1.errorMsg = st.errorMsg ∧
    (doRefine oR oT st).2.1.cancelled = st.cancelled ∧
    (doRefine oR oT st).2.1.isConverting = st.isConverting ∧
    (doRefine oR oT st).2.1.hasAbortController = st.hasAbortController := by
  cases oR with
  | abortedAtFetch => exact ⟨rfl, Or.inl rfl, Or.inl rfl, rfl, rfl, rfl, rfl, rfl⟩
  | badStatus s => exact ⟨rfl, Or.inl rfl, Or.inl rfl, rfl, rfl, rfl, rfl, rfl⟩
  | stream evs ab =>
    cases ab
    · refine ⟨?_, ?_, ?_, ?_, ?_, ?_, ?_, ?_⟩
      · exact (doTts_state oT _).1.trans (refineConsume_fields evs _).1
      · exact Or.inr (congrArg Stage.status (doTts_state oT _).2.1)
      · exact Or.inr (doTts_state oT _).2.2.1
      · exact (doTts_state oT _).2.2.2.1.trans (refineConsume_fields evs _).2.2.2.1
      · exact (doTts_state oT _).2.2.2.2.1.trans
          (refineConsume_fields evs _).2.2.2.2.2.1
      · exact (doTts_state oT _).2.2.2.2.2.1.trans
          (refineConsume_fields evs _).2.2.2.2.2.2.1
      · exact (doTts_state oT _).2.2.2.2.2.2.1.trans
          (refineConsume_fields evs _).2.2.2.2.2.2.2.1
      · exact (doTts_state oT _).2.2.2.2.2.2.2.trans
          (refineConsume_fields evs _).2.2.2.2.2.2.2.2
    · exact ⟨(refineConsume_fields evs _).1,
        Or.inl (refineConsume_fields evs _).2.1,
        Or.inl (congrArg Stage.status (refineConsume_fields evs _).2.2.1),
        (refineConsume_fields evs _).2.2.2.1,
        (refineConsume_fields evs _).2.2.2.2.2.1,
        (refineConsume_fields evs _).2.2.2.2.2.2.1,
        (refineConsume_fields evs _).2.2.2.2.2.2.2.1,
        (refineConsume_fields evs _).2.2.2.2.2.2.2.2⟩

theorem doRefine_outputPath (oR oT : FetchOutcome) (st : RunState)
    (h : st.outputPath = none) (p : String)
    (hp : (doRefine oR oT st).2.1.outputPath = some p) :
    ∃ evs3 d3, oT = FetchOutcome.stream evs3 false ∧ evs3.getLast? = some d3 ∧
      d3.output_file = some p := by
  cases oR with
  | abortedAtFetch => simp [doRefine, h] at hp
  | badStatus s => simp [doRefine, h] at hp
  | stream evs ab =>
    cases ab
    · refine doTts_outputPath oT _ ?_ p hp
      exact ((refineConsume_fields evs _).2.2.2.2.1).trans h
    · rw [show (doRefine (.stream evs true) oT st).2.1 = refineConsume
          { st with stages := { st.stages with
            s1 := { st.stages.s1 with status := .loading } } } evs from rfl] at hp
      rw [(refineConsume_fields evs _).2.2.2.2.1] at hp
      simp [h] at hp

/-- The `tryRun` exit state never carries an `error` stage status, keeps
`errorMsg = none`, `cancelled = false`, `isConverting = true` and
`hasAbortController = true`: those are only touched by `catch`/`finally`. -/
theorem tryRun_state (env : RunEnv) :
    (tryRun env).2.1.stages.s0.status ≠ StageStatus.error ∧
    (tryRun env).2.1.stages.s1.status ≠ StageStatus.error ∧
    (tryRun env).2.1.stages.s2.status ≠ StageStatus.error ∧
    (tryRun env).2.1.errorMsg = none ∧
    (tryRun env).2.1.cancelled = false ∧
    (tryRun env).2.1.isConverting = true ∧
    (tryRun env).2.1.hasAbortController = true := by
  cases hE : env.extract with
  | abortedAtFetch =>
    simp only [tryRun, hE]
    exact ⟨by simp [startState], by simp [startState], by simp [startState],
      rfl, rfl, rfl, rfl⟩
  | badStatus s =>
    simp only [tryRun, hE]
    exact ⟨by simp [startState], by simp [startState], by simp [startState],
      rfl, rfl, rfl, rfl⟩
  | stream evs ab =>
    cases ab
    · rcases hL : evs.getLast? with _ | d1
      · simp only [tryRun, hE, hL]
        have hec := extractConsume_fields evs { startState with
          stages := { startState.stages with
            s0 := { startState.stages.s0 with status := .loading } } }
        refine ⟨?_, ?_, ?_, ?_, ?_, ?_, ?_⟩
        · rw [hec.1]; simp [startState]
        · rw [hec.2.1]; simp [startState]
        · rw [show (extractConsume { startState with
              stages := { startState.stages with
                s0 := { startState.stages.s0 with status := .loading } } }
                evs).stages.s2 = startState.stages.s2 from hec.2.2.1]
          simp [startState]
        · exact hec.2.2.2.2.2.1
        · exact hec.2.2.2.2.2.2.1
        · exact hec.2.2.2.2.2.2.2.1
        · exact hec.2.2.2.2.2.2.2.2
      · simp only [tryRun, hE, hL]
        have hec := extractConsume_fields evs { startState with
          stages := { startState.stages with
            s0 := { startState.stages.s0 with status := .loading } } }
        have hdr := doRefine_state env.refine env.tts
          { extractConsume { startState with
              stages := { startState.stages with
                s0 := { startState.stages.s0 with status := .loading } } } evs with
            jobId := d1.job_id,
            stages := { (extractConsume { startState with
              stages := { startState.stages with
                s0 := { startState.stages.s0 with status := .loading } } }
                evs).stages with s0 := { status := .done, detail := .empty } } }
        refine ⟨?_, ?_, ?_, ?_, ?_, ?_, ?_⟩
        · rw [hdr.1]
          simp
        · rcases hdr.2.1 with h2 | h2 <;> rw [h2] <;> simp
        · rcases hdr.2.2.1 with h2 | h2 | h2 <;> rw [h2]
          · rw [hec.2.2.1]
            simp [startState]
          · simp
          · simp
        · rw [hdr.2.2.2.2.1]
          exact hec.2.2.2.2.2.1
        · rw [hdr.2.2.2.2.2.1]
          exact hec.2.2.2.2.2.2.1
        · rw [hdr.2.2.2.2.2.2.1]
          exact hec.2.2.2.2.2.2.2.1
        · rw [hdr.2.2.2.2.2.2.2]
          exact hec.2.2.2.2.2.2.2.2
    · simp only [tryRun, hE]
      have hec := extractConsume_fields evs { startState with
        stages := { startState.stages with
          s0 := { startState.stages.s0 with status := .loading } } }
      refine ⟨?_, ?_, ?_, ?_, ?_, ?_, ?_⟩
      · rw [hec.1]; simp [startState]
      · rw [hec.2.1]; simp [startState]
      · rw [show (extractConsume { startState with
            stages := { startState.stages with
              s0 := { startState.stages.s0 with status := .loading } } }
              evs).stages.s2 = startState.stages.s2 from hec.2.2.1]
        simp [startState]
      · exact hec.2.2.2.2.2.1
      · exact hec.2.2.2.2.2.2.1
      · exact hec.2.2.2.2.2.2.2.1
      · exact hec.2.2.2.2.2.2.2.2

theorem tryRun_outputPath (env : RunEnv) (p : String)
    (hp : (tryRun env).2.1.outputPath = some p) :
    ∃ evs3 d3, env.tts = FetchOutcome.stream evs3 false ∧
      evs3.getLast? = some d3 ∧ d3.output_file = some p := by
  cases hE : env.extract with
  | abortedAtFetch => simp [tryRun, hE, startState] at hp
  | badStatus s => simp [tryRun, hE, startState] at hp
  | stream evs ab =>
    cases ab
    · rcases hL : evs.getLast? with _ | d1
      · simp only [tryRun, hE, hL] at hp
        rw [(extractConsume_fields evs _).2.2.2.2.1] at hp
        simp [startState] at hp
      · simp only [tryRun, hE, hL] at hp
        refine doRefine_outputPath env.refine env.tts _ ?_ p hp
        exact (extractConsume_fields evs _).2.2.2.2.1
    · simp only [tryRun, hE] at hp
      rw [(extractConsume_fields evs _).2.2.2.2.1] at hp
      simp [startState] at hp

theorem clearStage_status_ne_error {s : Stage} (h : s.status ≠ StageStatus.error) :
    (clearStage s).status ≠ StageStatus.error := by
  by_cases hl : s.status = StageStatus.loading <;> simp [clearStage, hl, h]

theorem clearStage_not_loading (s : Stage) :
    (clearStage s).status ≠ StageStatus.loading := by
  by_cases hl : s.status = StageStatus.loading <;> simp [clearStage, hl]

theorem clearStage_of_loading {s : Stage} (h : s.status = StageStatus.loading) :
    (clearStage s).status = StageStatus.idle := by
  simp [clearStage, h]

/-- Claim C7: on every exit path of `run` — success, failure, or
cancellation — the in-flight-run state is released: `isConverting` is
`false` and the abort controller is cleared when `run` terminates. -/
theorem run_releases_inflight_state (env : RunEnv) :
    (run env).2.isConverting = false ∧ (run env).2.hasAbortController = false :=
  ⟨rfl, rfl⟩

/-- Claim C6: when `run` ends because the in-flight request was aborted
(`AbortError`), the outcome is recorded as cancelled and not as an error:
the error message stays unset, no stage is marked error, and every stage
that was loading at the throw is returned to idle (so no stage is left
loading). -/
theorem run_abort_is_cancelled (env : RunEnv)
    (h : (tryRun env).2.2 = some JsError.abort) :
    (run env).2.cancelled = true ∧
    (run env).2.errorMsg = none ∧
    ((run env).2.stages.s0.status ≠ StageStatus.error ∧
      (run env).2.stages.s1.status ≠ StageStatus.error ∧
      (run env).2.stages.s2.status ≠ StageStatus.error) ∧
    ((run env).2.stages.s0.status ≠ StageStatus.loading ∧
      (run env).2.stages.s1.status ≠ StageStatus.loading ∧
      (run env).2.stages.s2.status ≠ StageStatus.loading) ∧
    (((tryRun env).2.1.stages.s0.status = StageStatus.loading →
        (run env).2.stages.s0.status = StageStatus.idle) ∧
      ((tryRun env).2.1.stages.s1.status = StageStatus.loading →
        (run env).2.stages.s1.status = StageStatus.idle) ∧
      ((tryRun env).2.1.stages.s2.status = StageStatus.loading →
        (run env).2.stages.s2.status = StageStatus.idle)) := by
  have hts := tryRun_state env
  have hrun : (run env).2 = { (tryRun env).2.1 with
      cancelled := true,
      stages := clearLoading (tryRun env).2.1.stages,
      isConverting := false, hasAbortController := false } := by
    simp only [run, h]
  rw [hrun]
  refine ⟨rfl, hts.2.2.2.1, ⟨?_, ?_, ?_⟩, ⟨?_, ?_, ?_⟩, ?_, ?_, ?_⟩
  · exact clearStage_status_ne_error hts.1
  · exact clearStage_status_ne_error hts.2.1
  · exact clearStage_status_ne_error hts.2.2.1
  · exact clearStage_not_loading _
  · exact clearStage_not_loading _
  · exact clearStage_not_loading _
  · exact fun h0 => clearStage_of_loading h0
  · exact fun h0 => clearStage_of_loading h0
  · exact fun h0 => clearStage_of_loading h0

/-- Closed witness for claim C6: aborting the extract fetch yields a
cancelled, error-free outcome. -/
theorem run_abort_is_cancelled_witness :
    (tryRun ⟨.abortedAtFetch, .abortedAtFetch, .abortedAtFetch⟩).2.2 =
        some JsError.abort ∧
      (run ⟨.abortedAtFetch, .abortedAtFetch, .abortedAtFetch⟩).2.cancelled = true ∧
      (run ⟨.abortedAtFetch, .abortedAtFetch, .abortedAtFetch⟩).2.errorMsg = none :=
  ⟨rfl,
    (run_abort_is_cancelled ⟨.abortedAtFetch, .abortedAtFetch, .abortedAtFetch⟩ rfl).1,
    (run_abort_is_cancelled ⟨.abortedAtFetch, .abortedAtFetch, .abortedAtFetch⟩ rfl).2.1⟩

theorem doRefine_trace_stream (evs2 : List Event) (oT : FetchOutcome) (st : RunState) :
    ∃ tail, (doRefine (FetchOutcome.stream evs2 false) oT st).1 =
      (Action.reqRefine st.jobId :: evs2.map (Action.evt 1)) ++
        Action.reqTts st.jobId :: tail ∧
      ∀ a ∈ tail, ∃ e, a = Action.evt 2 e := by
  obtain ⟨t2, ht2, hall⟩ := doTts_trace_head oT
    { refineConsume { st with stages := { st.stages with
        s1 := { st.stages.s1 with status := .loading } } } evs2 with
      stages := { (refineConsume { st with stages := { st.stages with
        s1 := { st.stages.s1 with status := .loading } } } evs2).stages with
        s1 := { status := .done, detail := .empty } } }
  refine ⟨t2, ?_, hall⟩
  have hjob := (refineConsume_fields evs2 { st with stages := { st.stages with
      s1 := { st.stages.s1 with status := .loading } } }).2.2.2.1
  simp only [doRefine]
  rw [ht2]
  simp only [hjob]

theorem run_trace_eq (env : RunEnv) : (run env).1 = (tryRun env).1 := rfl

theorem run_outputPath_eq (env : RunEnv) :
    (run env).2.outputPath = (tryRun env).2.1.outputPath := by
  rcases h22 : (tryRun env).2.2 with _ | e
  · simp only [run, h22]
  · cases e
    · simp only [run, h22]
    · simp only [run, h22]

/-- Claim C4: the refine request is issued only after the extract stream
has been consumed to completion (all extract events precede it in the
trace), the tts request only after the refine stream has completed; the
job identifier interpolated into the refine and tts request URLs is the
`job_id` of the final event of the extract stream, and any reported
output path is the `output_file` of the final event of the tts stream. -/
theorem run_sequencing (env : RunEnv) :
    (∀ j, Action.reqRefine j ∈ (run env).1 →
      ∃ evs d1, env.extract = FetchOutcome.stream evs false ∧
        evs.getLast? = some d1 ∧ j = d1.job_id ∧
        ∃ rest, (run env).1 =
          (Action.reqExtract :: evs.map (Action.evt 0)) ++
            Action.reqRefine j :: rest) ∧
    (∀ j, Action.reqTts j ∈ (run env).1 →
      ∃ evs d1 evs2, env.extract = FetchOutcome.stream evs false ∧
        evs.getLast? = some d1 ∧ j = d1.job_id ∧
        env.refine = FetchOutcome.stream evs2 false ∧
        ∃ rest, (run env).1 =
          (Action.reqExtract :: evs.map (Action.evt 0)) ++
            ((Action.reqRefine j :: evs2.map (Action.evt 1)) ++
              Action.reqTts j :: rest)) ∧
    (∀ p, (run env).2.outputPath = some p →
      ∃ evs3 d3, env.tts = FetchOutcome.stream evs3 false ∧
        evs3.getLast? = some d3 ∧ d3.output_file = some p) := by
  refine ⟨?_, ?_, ?_⟩
  · intro j hmem
    simp only [run] at hmem
    cases hE : env.extract with
    | abortedAtFetch => simp [tryRun, hE] at hmem
    | badStatus s => simp [tryRun, hE] at hmem
    | stream evs ab =>
      cases ab with
      | true => simp [tryRun, hE, List.mem_map] at hmem
      | false =>
        rcases hL : evs.getLast? with _ | d1
        · simp [tryRun, hE, hL, List.mem_map] at hmem
        · simp only [tryRun, hE, hL, List.mem_append, List.mem_cons,
            List.mem_map] at hmem
          rcases hmem with (h1 | h1) | h1
          · exact absurd h1 (by simp)
          · obtain ⟨e, _, he⟩ := h1
            exact absurd he (by simp)
          · have hcls := doRefine_trace_mem env.refine env.tts _ _ h1
            rcases hcls with h2 | h2 | h2 | h2
            · have hj : j = d1.job_id := by
                simp only [Action.reqRefine.injEq] at h2
                exact h2
              refine ⟨evs, d1, rfl, hL, hj, ?_⟩
              obtain ⟨tail, htail⟩ := doRefine_trace_head env.refine env.tts _
              refine ⟨tail, ?_⟩
              simp only [run, tryRun, hE, hL]
              rw [htail, hj]
            · obtain ⟨e, he⟩ := h2
              exact absurd he (by simp)
            · exact absurd h2 (by simp)
            · obtain ⟨e, he⟩ := h2
              exact absurd he (by simp)
  · intro j hmem
    simp only [run] at hmem
    cases hE : env.extract with
    | abortedAtFetch => simp [tryRun, hE] at hmem
    | badStatus s => simp [tryRun, hE] at hmem
    | stream evs ab =>
      cases ab with
      | true => simp [tryRun, hE, List.mem_map] at hmem
      | false =>
        rcases hL : evs.getLast? with _ | d1
        · simp [tryRun, hE, hL, List.mem_map] at hmem
        · simp only [tryRun, hE, hL, List.mem_append, List.mem_cons,
            List.mem_map] at hmem
          rcases hmem with (h1 | h1) | h1
          · exact absurd h1 (by simp)
          · obtain ⟨e, _, he⟩ := h1
            exact absurd he (by simp)
          · cases hR : env.refine with
            | abortedAtFetch => rw [hR] at h1; simp [doRefine] at h1
            | badStatus s => rw [hR] at h1; simp [doRefine] at h1
            | stream evs2 ab2 =>
              cases ab2 with
              | true =>
                rw [hR] at h1
                simp [doRefine, List.mem_map] at h1
              | false =>
                rw [hR] at h1
                obtain ⟨t2, ht2, hall⟩ := doRefine_trace_stream evs2 env.tts _
                rw [ht2] at h1
                simp only [List.mem_append, List.mem_cons, List.mem_map] at h1
                rcases h1 with (h3 | h3) | h3 | h3
                · exact absurd h3 (by simp)
                · obtain ⟨e, _, he⟩ := h3
                  exact absurd he (by simp)
                · have hj : j = d1.job_id := by
                    simp only [Action.reqTts.injEq] at h3
                    exact h3
                  refine ⟨evs, d1, evs2, rfl, hL, hj, rfl, t2, ?_⟩
                  simp only [run, tryRun, hE, hL, hR]
                  rw [ht2, hj]
                · obtain ⟨e, he⟩ := hall _ h3
                  exact absurd he (by simp)
  · intro p hp
    rw [run_outputPath_eq] at hp
    exact tryRun_outputPath env p hp

/-- A one-event extract stream carrying a job id, an empty refine stream,
and a one-event tts stream carrying an output path. -/
def witEnv : RunEnv :=
  ⟨.stream [⟨none, some "j1", none, none, none, none⟩] false,
    .stream [] false,
    .stream [⟨none, none, none, none, none, some "out.wav"⟩] false⟩

/-- Closed witness for claim C4: on a fully successful environment the
refine and tts requests happen, carry the extract stream's job id, and
the reported output path is the tts stream's final `output_file`. -/
theorem run_sequencing_witness :
    (Action.reqRefine (some "j1") ∈ (run witEnv).1 ∧
      Action.reqTts (some "j1") ∈ (run witEnv).1 ∧
      (run witEnv).2.outputPath = some "out.wav") ∧
    (∃ evs d1, witEnv.extract = FetchOutcome.stream evs false ∧
      evs.getLast? = some d1 ∧ (some "j1" : Option String) = d1.job_id ∧
      ∃ rest, (run witEnv).1 =
        (Action.reqExtract :: evs.map (Action.evt 0)) ++
          Action.reqRefine (some "j1") :: rest) ∧
    (∃ evs3 d3, witEnv.tts = FetchOutcome.stream evs3 false ∧
      evs3.getLast? = some d3 ∧ d3.output_file = some "out.wav") :=
  ⟨⟨by decide, by decide, by decide⟩,
    (run_sequencing witEnv).1 (some "j1") (by decide),
    (run_sequencing witEnv).2.2 "out.wav" (by decide)⟩

/-!
 ### Part 3: the home page (src/app/src/HomePage.vue)

`checkHealth`, `downloadKokoro` and the Convert-to-Speech enablement.
The backend's `/health` answer and the `/download-kokoro` exchange are
oracles, like the fetches of `run`.
-/

inductive CheckStatus where
  | pending
  | ok
  | error
deriving DecidableEq, BEq

structure Health where
  loading : Bool
  ollamaStatus : CheckStatus
  ollamaDetail : String
  kokoroStatus : CheckStatus
  kokoroDetail : String
deriving DecidableEq

/-- The home-page state touched by the modelled functions.  `kokoroFiles`
is the presence pair for `kokoro-v1.0.onnx` and `voices-v1.0.bin`;
`selectedFile` is the chosen document's name. -/
structure HomeState where
  health : Health
  kokoroFiles : Bool × Bool
  downloadingKokoro : Bool
  kokoroCurrentFile : String
  kokoroCurrentPercent : Nat
  selectedFile : Option String
deriving DecidableEq

/-- What the `/health` request returned: a network failure, or a body with
`ollama.ok`, `ollama.detail`, `kokoro.ok` and the optional per-file map. -/
inductive HealthResp where
  | fail
  | ok (ollamaOk : Bool) (ollamaDetail : String) (kokoroOk : Bool)
      (files : Option (Bool × Bool))
deriving DecidableEq

/-- `checkHealth`: sets `loading` during the request and clears it in the
`finally`; on success copies the statuses and the ollama detail and resets
the kokoro detail to `""`; on failure marks both checks error, also with
an empty kokoro detail. -/
def checkHealth (st : HomeState) (r : HealthResp) : HomeState :=
  match r with
  | .ok oOk od kOk files =>
    { st with
      health := {
        loading := false,
        ollamaStatus := if oOk then .ok else .error,
        ollamaDetail := od,
        kokoroStatus := if kOk then .ok else .error,
        kokoroDetail := "" },
      kokoroFiles := match files with | some fs => fs | none => st.kokoroFiles }
  | .fail =>
    { st with
      health := {
        loading := false,
        ollamaStatus := .error,
        ollamaDetail := "Cannot reach backend server",
        kokoroStatus := .error,
        kokoroDetail := "" } }

/-- One parsed download progress event. -/
structure DlEvent where
  status : Option String
  file : Option String
  percent : Option Nat
  message : Option String
deriving DecidableEq

/-- How the `/download-kokoro` exchange went. -/
inductive DlOutcome where
  | fetchThrew (message : String)
  | badStatus (statusText : String)
  | stream (events : List DlEvent)
deriving DecidableEq

/-- The `onEvent` of `downloadKokoro`, threading the local
`downloadError` variable: `downloading` updates the current file/percent,
`file_done` marks the file present, `error` records the failure message
(the stream keeps being consumed). -/
def dlApplyEvent (acc : HomeState × Option String) (e : DlEvent) :
    HomeState × Option String :=
  let st := acc.1
  if e.status = some "downloading" then
    ({ st with
        kokoroCurrentFile := e.file.getD "",
        kokoroCurrentPercent := e.percent.getD 0 }, acc.2)
  else if e.status = some "file_done" then
    let files :=
      if e.file = some "kokoro-v1.0.onnx" then (true, st.kokoroFiles.2)
      else if e.file = some "voices-v1.0.bin" then (st.kokoroFiles.1, true)
      else st.kokoroFiles
    ({ st with
        kokoroFiles := files, kokoroCurrentFile := "",
        kokoroCurrentPercent := 0 }, acc.2)
  else if e.status = some "error" then
    (st, some (e.message.getD "Download failed"))
  else (st, acc.2)

def setKokoroDetail (st : HomeState) (m : String) : HomeState :=
  { st with health := { st.health with kokoroDetail := m } }

/-- The final value of `downloadError`: the message of the last event with
`status === "error"`, if any. -/
def lastErrMsg (evs : List DlEvent) : Option String :=
  evs.foldl (fun o e => if e.status = some "error"
    then some (e.message.getD "Download failed") else o) none

/-- The whole of `downloadKokoro`: mark downloading, consume the stream
(or catch a fetch/status failure), re-raise a recorded `downloadError`
(JavaScript truthiness: an empty-string message does not re-raise) into
the catch which writes the kokoro detail, then the `finally`: clear the
downloading flags and `await checkHealth()`.  Returns the state right
after try/catch (before the `finally` re-check) and the final state. -/
def downloadKokoro (st0 : HomeState) (dl : DlOutcome) (hr : HealthResp) :
    HomeState × HomeState :=
  let st := { st0 with
    downloadingKokoro := true, kokoroCurrentFile := "",
    kokoroCurrentPercent := 0 }
  let mid :=
    match dl with
    | .fetchThrew m => setKokoroDetail st m
    | .badStatus s => setKokoroDetail st ("Download failed: " ++ s)
    | .stream evs =>
      let r := evs.foldl dlApplyEvent (st, none)
      match r.2 with
      | some m => if m = "" then r.1 else setKokoroDetail r.1 m
      | none => r.1
  let fin := checkHealth { mid with
    downloadingKokoro := false,
    kokoroCurrentFile := "" } hr
  (mid, fin)

/-- `allRequirementsOk`: readiness check finished and both checks ok. -/
def allRequirementsOk (st : HomeState) : Bool :=
  !st.health.loading && decide (st.health.ollamaStatus = CheckStatus.ok) &&
    decide (st.health.kokoroStatus = CheckStatus.ok)

/-- The `:disabled` binding of the Convert to Speech button:
`!selectedFile || !allRequirementsOk`. -/
def convertDisabled (st : HomeState) : Bool :=
  !st.selectedFile.isSome || !allRequirementsOk st

/-- `startConversion`: emits `start` with the selected file, or nothing
when no file is selected. -/
def startConversion (st : HomeState) : Option String :=
  match st.selectedFile with
  | none => none
  | some f => some f

/-! ### Claims C5 and C8 -/

theorem dlFold_snd (evs : List DlEvent) : ∀ (st : HomeState) (o : Option String),
    (evs.foldl dlApplyEvent (st, o)).2 =
      evs.foldl (fun o e => if e.status = some "error"
        then some (e.message.getD "Download failed") else o) o := by
  induction evs with
  | nil => intro st o; rfl
  | cons e rest ih =>
    intro st o
    simp only [List.foldl_cons]
    have hstep : (dlApplyEvent (st, o) e).2 =
        (if e.status = some "error"
          then some (e.message.getD "Download failed") else o) := by
      by_cases hd : e.status = some "downloading"
      · simp [dlApplyEvent, hd]
      · by_cases hf : e.status = some "file_done"
        · simp [dlApplyEvent, hd, hf]
        · by_cases he : e.status = some "error"
          · simp [dlApplyEvent, hd, hf, he]
          · simp [dlApplyEvent, hd, hf, he]
    calc (rest.foldl dlApplyEvent (dlApplyEvent (st, o) e)).2
        = rest.foldl (fun o e => if e.status = some "error"
            then some (e.message.getD "Download failed") else o)
            (dlApplyEvent (st, o) e).2 := ih _ _
      _ = _ := by rw [hstep]

/-- A home state with the kokoro assets missing and the checks done. -/
def cexHome : HomeState :=
  ⟨⟨false, .ok, "", .error, ""⟩, (false, false), false, "", 0, none⟩

/-- Counterexample to claim C5 as stated: a download stream containing an
`error` event with message `"boom"`, followed by a health re-check whose
response says the kokoro assets are fine, ends with the kokoro readiness
detail equal to `""` — not the failure message — and the kokoro status
`ok`: the `finally` re-check unconditionally wipes the detail the catch
had written, so the aggregate operation does not keep reporting failure. -/
theorem downloadKokoro_detail_wiped_cex :
    lastErrMsg [⟨some "error", none, none, some "boom"⟩] = some "boom" ∧
    ((downloadKokoro cexHome (.stream [⟨some "error", none, none, some "boom"⟩])
        (.ok true "" true (some (true, true)))).2).health.kokoroDetail = "" ∧
    ((downloadKokoro cexHome (.stream [⟨some "error", none, none, some "boom"⟩])
        (.ok true "" true (some (true, true)))).2).health.kokoroStatus =
      CheckStatus.ok :=
  ⟨by decide, by decide, by decide⟩

/-- Claim C5, amended: if an `error` event with a non-empty message
appears in the download stream, then the failure message is recorded in
the kokoro readiness detail by the catch handler — i.e. in the state
reached right after try/catch, before the `finally` re-check — while
after `downloadKokoro` completes the detail has been reset to `""` by the
unconditional health re-check and the downloading flag is released; the
kokoro status after completion is whatever the re-check reports, not
necessarily a failure. -/
theorem downloadKokoro_failure_detail (st : HomeState) (evs : List DlEvent)
    (hr : HealthResp) (m : String) (h1 : lastErrMsg evs = some m) (h2 : m ≠ "") :
    ((downloadKokoro st (.stream evs) hr).1).health.kokoroDetail = m ∧
    ((downloadKokoro st (.stream evs) hr).2).health.kokoroDetail = "" ∧
    ((downloadKokoro st (.stream evs) hr).2).downloadingKokoro = false := by
  have hsnd := (dlFold_snd evs { st with
    downloadingKokoro := true, kokoroCurrentFile := "",
    kokoroCurrentPercent := 0 } none).trans h1
  refine ⟨?_, ?_, ?_⟩
  · simp only [downloadKokoro, hsnd]
    rw [if_neg h2]
    rfl
  · cases hr <;> rfl
  · cases hr <;> rfl

/-- Closed witness for the amended claim C5. -/
theorem downloadKokoro_failure_detail_witness :
    lastErrMsg [⟨some "error", none, none, some "boom"⟩] = some "boom" ∧
    ("boom" : String) ≠ "" ∧
    ((downloadKokoro cexHome (.stream [⟨some "error", none, none, some "boom"⟩])
        HealthResp.fail).1).health.kokoroDetail = "boom" ∧
    ((downloadKokoro cexHome (.stream [⟨some "error", none, none, some "boom"⟩])
        HealthResp.fail).2).health.kokoroDetail = "" :=
  ⟨by decide, by decide,
    (downloadKokoro_failure_detail cexHome
      [⟨some "error", none, none, some "boom"⟩] HealthResp.fail "boom"
      (by decide) (by decide)).1,
    (downloadKokoro_failure_detail cexHome
      [⟨some "error", none, none, some "boom"⟩] HealthResp.fail "boom"
      (by decide) (by decide)).2.1⟩

/-- Claim C8: the Convert to Speech action is enabled exactly when the
readiness check has finished (`loading = false`) with the language-model
check and the asset-file check both `ok` and a document file is selected;
and whenever it is enabled, `startConversion` emits the selected file. -/
theorem convert_enabled_iff (st : HomeState) :
    (convertDisabled st = false ↔
      (st.health.loading = false ∧ st.health.ollamaStatus = CheckStatus.ok ∧
        st.health.kokoroStatus = CheckStatus.ok ∧ st.selectedFile.isSome = true)) ∧
    (convertDisabled st = false →
      ∃ f, st.selectedFile = some f ∧ startConversion st = some f) := by
  constructor
  · simp only [convertDisabled, allRequirementsOk, Bool.or_eq_false_iff,
      Bool.not_eq_false', Bool.and_eq_true, beq_iff_eq, Bool.not_eq_true']
    constructor
    · rintro ⟨hf, ⟨hl, ho⟩, hk⟩
      exact ⟨hl, of_decide_eq_true ho, of_decide_eq_true hk, hf⟩
    · rintro ⟨hl, ho, hk, hf⟩
      exact ⟨hf, ⟨hl, decide_eq_true ho⟩, decide_eq_true hk⟩
  · intro h
    rcases hf : st.selectedFile with _ | f
    · rw [convertDisabled, hf] at h
      simp at h
    · exact ⟨f, rfl, by simp [startConversion, hf]⟩

end DocToSpeech
